import Mathlib

/-!
# PaperThrow server: session protocol

A shallow embedding of `src/index.js` (four HTTP handlers over a document
store) and the properties of its session authentication and event
aggregation.

Modelling conventions.

* JavaScript numbers are exact rationals; a result that JavaScript would
  represent as `NaN` or an infinity is the separate value `JSNum.nonFinite`.
* The document store is an abstract key-value store: session documents keyed
  by token, and per session an append-only list of event records.  Any string
  is a document id and the store accepts every write the handlers issue; what
  a particular backend refuses (an id with a `/`, an `undefined` field value)
  is not modelled.  Handlers run one after the other, each one to completion.
* The library primitives HMAC-SHA256 and MD5 are parameters (`Crypto`) of the
  handlers, so that the properties hold whatever the digests are; `nodeCrypto`
  is the instance computed by the actual algorithms.  The random bytes of
  `newToken`, `Date.now()` and the server timestamp are inputs (`Env`).
* Body fields that the code hands to a string-consuming library call
  (document id, HMAC input, `JSON.parse`) are optional strings, where `none`
  stands for an absent or `null` field; the other fields are arbitrary
  decoded JSON values.
-/

namespace PaperThrow

/-! ## JavaScript values -/

/-- A decoded JSON value, or `undefined` for an absent field. -/
inductive JVal where
  | undefined
  | null
  | bool (b : Bool)
  | num (q : ℚ)
  | str (s : String)
  | arr (xs : List JVal)
  | obj (kvs : List (String × JVal))

/-- JavaScript truthiness (`!v` is its negation). -/
def JVal.truthy : JVal → Bool
  | .undefined => false
  | .null => false
  | .bool b => b
  | .num q => decide (q ≠ 0)
  | .str s => decide (s ≠ "")
  | .arr _ => true
  | .obj _ => true

/-- The comparison `v === s` against a string `s`. -/
def JVal.strictEqStr : JVal → String → Bool
  | .str t, s => decide (t = s)
  | _, _ => false

/-- Truthiness of an optional string field. -/
def strTruthy : Option String → Bool
  | none => false
  | some s => decide (s ≠ "")

/-- The result of floating-point arithmetic: a finite number, or `NaN` / an
infinity. -/
inductive JSNum where
  | nonFinite
  | fin (q : ℚ)
  deriving DecidableEq

/-- Lifts a binary operation on finite numbers. -/
def JSNum.lift₂ (f : ℚ → ℚ → ℚ) : JSNum → JSNum → JSNum
  | .fin a, .fin b => .fin (f a b)
  | _, _ => .nonFinite

def JSNum.add : JSNum → JSNum → JSNum := JSNum.lift₂ (· + ·)
def JSNum.sub : JSNum → JSNum → JSNum := JSNum.lift₂ (· - ·)
def JSNum.mul : JSNum → JSNum → JSNum := JSNum.lift₂ (· * ·)

/-- The operator `a / b`: a zero divisor gives `NaN` or an infinity. -/
def JSNum.div : JSNum → JSNum → JSNum
  | .fin a, .fin b => if b = 0 then .nonFinite else .fin (a / b)
  | _, _ => .nonFinite

/-! ## Hex strings -/

/-- Lower-case hexadecimal digit of a value below 16. -/
def hexDigit (n : Nat) : Char :=
  if n < 10 then Char.ofNat (48 + n) else Char.ofNat (87 + n)

/-- The two hex digits of each byte, in order. -/
def hexChars : List (Fin 256) → List Char
  | [] => []
  | b :: bs => hexDigit (b.val / 16) :: hexDigit (b.val % 16) :: hexChars bs

/-- Encoding `.toString("hex")` / `.digest("hex")` of a byte buffer. -/
def toHex (bytes : List (Fin 256)) : String := String.mk (hexChars bytes)

/-- Value of a hexadecimal digit character. -/
def hexVal (c : Char) : Option Nat :=
  if 48 ≤ c.toNat ∧ c.toNat ≤ 57 then some (c.toNat - 48)
  else if 97 ≤ c.toNat ∧ c.toNat ≤ 102 then some (c.toNat - 87)
  else if 65 ≤ c.toNat ∧ c.toNat ≤ 70 then some (c.toNat - 55)
  else none

/-- Reads the longest prefix of hex digits; `none` when there is none. -/
def parseHexDigits : List Char → Option Nat → Option Nat
  | [], acc => acc
  | c :: cs, acc =>
    match hexVal c with
    | some v => parseHexDigits cs (some (16 * acc.getD 0 + v))
    | none => acc

/-- White space and line terminators skipped by `parseInt`, by code point. -/
def isJsSpace (c : Char) : Bool :=
  c.toNat = 32 || (9 ≤ c.toNat && c.toNat ≤ 13) || c.toNat = 160 || c.toNat = 5760
    || (8192 ≤ c.toNat && c.toNat ≤ 8202) || c.toNat = 8232 || c.toNat = 8233
    || c.toNat = 8239 || c.toNat = 8287 || c.toNat = 12288 || c.toNat = 65279

/-- The scan of `parseInt(s, 16)`: leading white space, a sign, an optional
`0x` prefix and the longest run of hex digits.  Returns whether the sign is
`-` and the value of the digits; `none` when no digit follows. -/
def scanInt16 (cs : List Char) : Option (Bool × Nat) :=
  let cs := cs.dropWhile isJsSpace
  let signed : Bool × List Char :=
    match cs with
    | '-' :: r => (true, r)
    | '+' :: r => (false, r)
    | _ => (false, cs)
  let digits : List Char :=
    match signed.2 with
    | '0' :: 'x' :: r => r
    | '0' :: 'X' :: r => r
    | r => r
  match parseHexDigits digits none with
  | none => none
  | some n => some (signed.1, n)

/-- The call `parseInt(s, 16)`; `NaN` when no digit is found. -/
def parseInt16 (s : String) : JSNum :=
  match scanInt16 s.toList with
  | none => .nonFinite
  | some (neg, n) => .fin (if neg then -(n : ℚ) else (n : ℚ))

/-- The call `s.substr(start, len)`. -/
def substr (s : String) (start len : Nat) : String :=
  String.mk ((s.toList.drop start).take len)

/-! ## JSON.parse

A model of the built-in `JSON.parse` on a string argument, following the
JSON grammar; `none` stands for the `SyntaxError` it raises.  Characters are
tested by code point.  A number is the exact rational its text denotes.  A
`\u` escape of a surrogate half, which no Lean string can hold, is read as
the character `Char.ofNat` gives for its code. -/

/-- JSON white space: space, tab, line feed, carriage return. -/
def isJsonWs (c : Char) : Bool :=
  c.toNat = 32 || c.toNat = 9 || c.toNat = 10 || c.toNat = 13

/-- Drops leading JSON white space. -/
def skipWs (cs : List Char) : List Char := cs.dropWhile isJsonWs

/-- Reads a run of decimal digits: its value, its length and the rest. -/
def readDigits : List Char → Nat → Nat → Nat × Nat × List Char
  | [], acc, n => (acc, n, [])
  | c :: cs, acc, n =>
    if 48 ≤ c.toNat ∧ c.toNat ≤ 57 then readDigits cs (10 * acc + (c.toNat - 48)) (n + 1)
    else (acc, n, c :: cs)

/-- Integer part of a JSON number: a single `0`, or digits not starting
with `0`. -/
def readInt (cs : List Char) : Option (Nat × List Char) :=
  match cs with
  | [] => none
  | c :: r =>
    if c.toNat = 48 then some (0, r)
    else
      match readDigits (c :: r) 0 0 with
      | (_, 0, _) => none
      | (v, _, rest) => some (v, rest)

/-- Optional fraction `.digits`: numerator, number of digits and the rest. -/
def readFrac (cs : List Char) : Option (Nat × Nat × List Char) :=
  match cs with
  | c :: r =>
    if c.toNat = 46 then
      match readDigits r 0 0 with
      | (_, 0, _) => none
      | res => some res
    else some (0, 0, cs)
  | [] => some (0, 0, [])

/-- Optional exponent `e[+-]digits`: whether negative, its value and the
rest. -/
def readExp (cs : List Char) : Option (Bool × Nat × List Char) :=
  match cs with
  | c :: r =>
    if c.toNat = 101 ∨ c.toNat = 69 then
      let signed : Bool × List Char :=
        match r with
        | d :: r1 =>
          if d.toNat = 45 then (true, r1) else if d.toNat = 43 then (false, r1) else (false, r)
        | [] => (false, r)
      match readDigits signed.2 0 0 with
      | (_, 0, _) => none
      | (v, _, rest) => some (signed.1, v, rest)
    else some (false, 0, cs)
  | [] => some (false, 0, [])

/-- A JSON number, as the exact rational its text denotes. -/
def parseNumber (cs : List Char) : Option (ℚ × List Char) :=
  let signed : Bool × List Char :=
    match cs with
    | c :: r => if c.toNat = 45 then (true, r) else (false, cs)
    | [] => (false, cs)
  match readInt signed.2 with
  | none => none
  | some (i, r1) =>
    match readFrac r1 with
    | none => none
    | some (f, k, r2) =>
      match readExp r2 with
      | none => none
      | some (eneg, e, r3) =>
        let m : ℚ := (i : ℚ) + (f : ℚ) / (10 : ℚ) ^ k
        let v : ℚ := if eneg then m / (10 : ℚ) ^ e else m * (10 : ℚ) ^ e
        some (if signed.1 then -v else v, r3)

/-- Four hex digits of a `\u` escape. -/
def readHex4 (cs : List Char) : Option (Nat × List Char) :=
  match cs with
  | a :: b :: c :: d :: r =>
    match hexVal a, hexVal b, hexVal c, hexVal d with
    | some x, some y, some z, some w => some (((x * 16 + y) * 16 + z) * 16 + w, r)
    | _, _, _, _ => none
  | _ => none

/-- The character of a one-letter escape. -/
def escapeChar (c : Char) : Option Char :=
  if c.toNat = 34 then some (Char.ofNat 34)
  else if c.toNat = 92 then some (Char.ofNat 92)
  else if c.toNat = 47 then some (Char.ofNat 47)
  else if c.toNat = 98 then some (Char.ofNat 8)
  else if c.toNat = 102 then some (Char.ofNat 12)
  else if c.toNat = 110 then some (Char.ofNat 10)
  else if c.toNat = 114 then some (Char.ofNat 13)
  else if c.toNat = 116 then some (Char.ofNat 9)
  else none

/-- The rest of a JSON string after its opening quote; `fuel` bounds the
number of characters read. -/
def parseStringBody : Nat → List Char → List Char → Option (String × List Char)
  | 0, _, _ => none
  | _ + 1, [], _ => none
  | fuel + 1, c :: r, acc =>
    if c.toNat = 34 then some (String.mk acc.reverse, r)
    else if c.toNat = 92 then
      match r with
      | [] => none
      | e :: r1 =>
        if e.toNat = 117 then
          match readHex4 r1 with
          | none => none
          | some (n, r2) => parseStringBody fuel r2 (Char.ofNat n :: acc)
        else
          match escapeChar e with
          | none => none
          | some ch => parseStringBody fuel r1 (ch :: acc)
    else if c.toNat < 32 then none
    else parseStringBody fuel r (c :: acc)

mutual

/-- A JSON value, preceded by optional white space. -/
def parseValue : Nat → List Char → Option (JVal × List Char)
  | 0, _ => none
  | fuel + 1, cs =>
    match skipWs cs with
    | [] => none
    | c :: r =>
      if c.toNat = 110 then
        match r with
        | 'u' :: 'l' :: 'l' :: r1 => some (.null, r1)
        | _ => none
      else if c.toNat = 116 then
        match r with
        | 'r' :: 'u' :: 'e' :: r1 => some (.bool true, r1)
        | _ => none
      else if c.toNat = 102 then
        match r with
        | 'a' :: 'l' :: 's' :: 'e' :: r1 => some (.bool false, r1)
        | _ => none
      else if c.toNat = 34 then
        match parseStringBody (r.length + 1) r [] with
        | none => none
        | some (s, r1) => some (.str s, r1)
      else if c.toNat = 91 then
        match skipWs r with
        | [] => none
        | d :: r1 =>
          if d.toNat = 93 then some (.arr [], r1)
          else parseElems fuel (d :: r1) []
      else if c.toNat = 123 then
        match skipWs r with
        | [] => none
        | d :: r1 =>
          if d.toNat = 125 then some (.obj [], r1)
          else parseMembers fuel (d :: r1) []
      else
        match parseNumber (c :: r) with
        | none => none
        | some (q, r1) => some (.num q, r1)

/-- The elements of a non-empty array, up to the closing bracket. -/
def parseElems : Nat → List Char → List JVal → Option (JVal × List Char)
  | 0, _, _ => none
  | fuel + 1, cs, acc =>
    match parseValue fuel cs with
    | none => none
    | some (v, r) =>
      match skipWs r with
      | [] => none
      | d :: r1 =>
        if d.toNat = 44 then parseElems fuel r1 (v :: acc)
        else if d.toNat = 93 then some (.arr (v :: acc).reverse, r1)
        else none

/-- The members of a non-empty object, up to the closing brace. -/
def parseMembers : Nat → List Char → List (String × JVal) → Option (JVal × List Char)
  | 0, _, _ => none
  | fuel + 1, cs, acc =>
    match skipWs cs with
    | [] => none
    | q :: r =>
      if q.toNat = 34 then
        match parseStringBody (r.length + 1) r [] with
        | none => none
        | some (key, r1) =>
          match skipWs r1 with
          | [] => none
          | colon :: r2 =>
            if colon.toNat = 58 then
              match parseValue fuel r2 with
              | none => none
              | some (v, r3) =>
                match skipWs r3 with
                | [] => none
                | d :: r4 =>
                  if d.toNat = 44 then parseMembers fuel r4 ((key, v) :: acc)
                  else if d.toNat = 125 then some (.obj ((key, v) :: acc).reverse, r4)
                  else none
            else none
      else none

end

/-- The two hash primitives of Node's `crypto` module, as functions from
their string inputs to the raw digest bytes. -/
structure Crypto where
  /-- The digest `createHmac("sha256", key).update(msg).digest()`. -/
  hmacSha256 : String → String → Fin 32 → Fin 256
  /-- The digest `createHash("md5").update(msg).digest()`. -/
  md5 : String → Fin 16 → Fin 256

/-- What a handler invocation reads from outside the request. -/
structure Env where
  /-- The bytes returned by `crypto.randomBytes(16)`. -/
  randomBytes : Fin 16 → Fin 256
  /-- The value of `Date.now()`. -/
  dateNow : Nat
  /-- The time the store substitutes for `FieldValue.serverTimestamp()`. -/
  serverTime : Nat

/-- Source: `hmacSign(input)`. -/
def hmacSign (C : Crypto) (input : String) : String :=
  let secret := "dev_secret_spark_tier"
  toHex (List.ofFn (C.hmacSha256 secret input))

/-- Source: `newToken()`. -/
def newToken (env : Env) : String := toHex (List.ofFn env.randomBytes)

/-! ## The hash functions

Implementations of MD5 (RFC 1321), SHA-256 (FIPS 180-4) and HMAC (RFC 2104)
on lists of byte values, with 32-bit words as natural numbers reduced modulo
`2 ^ 32`.  They give the instance `nodeCrypto` of the two primitives that a
Node.js process computes. -/

/-- UTF-8 encoding of a character, as byte values. -/
def utf8Bytes (c : Char) : List Nat :=
  let v := c.toNat
  if v < 0x80 then [v]
  else if v < 0x800 then [0xC0 + v / 64, 0x80 + v % 64]
  else if v < 0x10000 then [0xE0 + v / 4096, 0x80 + v / 64 % 64, 0x80 + v % 64]
  else [0xF0 + v / 262144, 0x80 + v / 4096 % 64, 0x80 + v / 64 % 64, 0x80 + v % 64]

/-- The bytes `update(s)` feeds to a hash: the UTF-8 encoding of `s`. -/
def stringBytes (s : String) : List Nat :=
  s.toList.foldr (fun c acc => utf8Bytes c ++ acc) []

/-- Rotation to the left of a 32-bit word. -/
def rotl32 (x n : Nat) : Nat := ((x <<< n) ||| (x >>> (32 - n))) % 4294967296

/-- The `n` low bytes of `x`, least significant first. -/
def leBytes : Nat → Nat → List Nat
  | 0, _ => []
  | n + 1, x => x % 256 :: leBytes n (x / 256)

/-- The 32-bit word of four bytes, least significant first. -/
def leWord (bs : List Nat) : Nat :=
  bs.getD 0 0 + 256 * bs.getD 1 0 + 65536 * bs.getD 2 0 + 16777216 * bs.getD 3 0

/-- MD5 padding: the byte `0x80`, zeros up to 56 modulo 64, and the length
in bits as 8 bytes, least significant first. -/
def md5Pad (bs : List Nat) : List Nat :=
  bs ++ 0x80 :: List.replicate ((119 - bs.length % 64) % 64) 0 ++ leBytes 8 (8 * bs.length)

/-- The sine table of MD5. -/
def md5K : List Nat :=
   [0xd76aa478, 0xe8c7b756, 0x242070db, 0xc1bdceee,
    0xf57c0faf, 0x4787c62a, 0xa8304613, 0xfd469501,
    0x698098d8, 0x8b44f7af, 0xffff5bb1, 0x895cd7be,
    0x6b901122, 0xfd987193, 0xa679438e, 0x49b40821,
    0xf61e2562, 0xc040b340, 0x265e5a51, 0xe9b6c7aa,
    0xd62f105d, 0x02441453, 0xd8a1e681, 0xe7d3fbc8,
    0x21e1cde6, 0xc33707d6, 0xf4d50d87, 0x455a14ed,
    0xa9e3e905, 0xfcefa3f8, 0x676f02d9, 0x8d2a4c8a,
    0xfffa3942, 0x8771f681, 0x6d9d6122, 0xfde5380c,
    0xa4beea44, 0x4bdecfa9, 0xf6bb4b60, 0xbebfbc70,
    0x289b7ec6, 0xeaa127fa, 0xd4ef3085, 0x04881d05,
    0xd9d4d039, 0xe6db99e5, 0x1fa27cf8, 0xc4ac5665,
    0xf4292244, 0x432aff97, 0xab9423a7, 0xfc93a039,
    0x655b59c3, 0x8f0ccc92, 0xffeff47d, 0x85845dd1,
    0x6fa87e4f, 0xfe2ce6e0, 0xa3014314, 0x4e0811a1,
    0xf7537e82, 0xbd3af235, 0x2ad7d2bb, 0xeb86d391]

/-- The rotation amounts of MD5. -/
def md5S : List Nat :=
   [7, 12, 17, 22, 7, 12, 17, 22, 7, 12, 17, 22, 7, 12, 17, 22,
    5, 9, 14, 20, 5, 9, 14, 20, 5, 9, 14, 20, 5, 9, 14, 20,
    4, 11, 16, 23, 4, 11, 16, 23, 4, 11, 16, 23, 4, 11, 16, 23,
    6, 10, 15, 21, 6, 10, 15, 21, 6, 10, 15, 21, 6, 10, 15, 21]

/-- The state of MD5: four 32-bit words. -/
structure Md5State where
  a : Nat
  b : Nat
  c : Nat
  d : Nat

/-- One of the 64 operations of MD5 on the 16 words `m` of a block. -/
def md5Step (m : List Nat) (s : Md5State) (i : Nat) : Md5State :=
  let nb := 4294967295 - s.b
  let nd := 4294967295 - s.d
  let f : Nat :=
    if i < 16 then (s.b &&& s.c) ||| (nb &&& s.d)
    else if i < 32 then (s.d &&& s.b) ||| (nd &&& s.c)
    else if i < 48 then s.b ^^^ s.c ^^^ s.d
    else s.c ^^^ (s.b ||| nd)
  let g : Nat :=
    if i < 16 then i
    else if i < 32 then (5 * i + 1) % 16
    else if i < 48 then (3 * i + 5) % 16
    else (7 * i) % 16
  let x := (f + s.a + md5K.getD i 0 + m.getD g 0) % 4294967296
  { a := s.d, d := s.c, c := s.b, b := (s.b + rotl32 x (md5S.getD i 0)) % 4294967296 }

/-- The 16 words of a 64-byte block. -/
def md5Words (block : List Nat) : List Nat :=
  (List.range 16).map (fun j => leWord ((block.drop (4 * j)).take 4))

/-- Processes one 64-byte block. -/
def md5Block (s : Md5State) (block : List Nat) : Md5State :=
  let t := (List.range 64).foldl (md5Step (md5Words block)) s
  { a := (s.a + t.a) % 4294967296, b := (s.b + t.b) % 4294967296,
    c := (s.c + t.c) % 4294967296, d := (s.d + t.d) % 4294967296 }

/-- Processes `n` consecutive 64-byte blocks. -/
def md5Blocks : Nat → Md5State → List Nat → Md5State
  | 0, s, _ => s
  | n + 1, s, bs => md5Blocks n (md5Block s (bs.take 64)) (bs.drop 64)

/-- The MD5 digest (RFC 1321) of a list of bytes, as 16 bytes. -/
def md5Digest (bs : List Nat) : List Nat :=
  let p := md5Pad bs
  let s := md5Blocks (p.length / 64) ⟨0x67452301, 0xefcdab89, 0x98badcfe, 0x10325476⟩ p
  leBytes 4 s.a ++ leBytes 4 s.b ++ leBytes 4 s.c ++ leBytes 4 s.d

/-- Rotation to the right of a 32-bit word. -/
def rotr32 (x n : Nat) : Nat := ((x >>> n) ||| (x <<< (32 - n))) % 4294967296

/-- The `n` low bytes of `x`, most significant first. -/
def beBytes (n x : Nat) : List Nat := (leBytes n x).reverse

/-- The 32-bit word of four bytes, most significant first. -/
def beWord (bs : List Nat) : Nat :=
  16777216 * bs.getD 0 0 + 65536 * bs.getD 1 0 + 256 * bs.getD 2 0 + bs.getD 3 0

/-- SHA-256 padding: the byte `0x80`, zeros up to 56 modulo 64, and the
length in bits as 8 bytes, most significant first. -/
def sha256Pad (bs : List Nat) : List Nat :=
  bs ++ 0x80 :: List.replicate ((119 - bs.length % 64) % 64) 0 ++ beBytes 8 (8 * bs.length)

/-- The round constants of SHA-256. -/
def sha256K : List Nat :=
   [0x428a2f98, 0x71374491, 0xb5c0fbcf, 0xe9b5dba5,
    0x3956c25b, 0x59f111f1, 0x923f82a4, 0xab1c5ed5,
    0xd807aa98, 0x12835b01, 0x243185be, 0x550c7dc3,
    0x72be5d74, 0x80deb1fe, 0x9bdc06a7, 0xc19bf174,
    0xe49b69c1, 0xefbe4786, 0x0fc19dc6, 0x240ca1cc,
    0x2de92c6f, 0x4a7484aa, 0x5cb0a9dc, 0x76f988da,
    0x983e5152, 0xa831c66d, 0xb00327c8, 0xbf597fc7,
    0xc6e00bf3, 0xd5a79147, 0x06ca6351, 0x14292967,
    0x27b70a85, 0x2e1b2138, 0x4d2c6dfc, 0x53380d13,
    0x650a7354, 0x766a0abb, 0x81c2c92e, 0x92722c85,
    0xa2bfe8a1, 0xa81a664b, 0xc24b8b70, 0xc76c51a3,
    0xd192e819, 0xd6990624, 0xf40e3585, 0x106aa070,
    0x19a4c116, 0x1e376c08, 0x2748774c, 0x34b0bcb5,
    0x391c0cb3, 0x4ed8aa4a, 0x5b9cca4f, 0x682e6ff3,
    0x748f82ee, 0x78a5636f, 0x84c87814, 0x8cc70208,
    0x90befffa, 0xa4506ceb, 0xbef9a3f7, 0xc67178f2]

/-- Extends the message schedule by one word. -/
def sha256Extend (w : List Nat) (i : Nat) : List Nat :=
  let w15 := w.getD (i - 15) 0
  let w2 := w.getD (i - 2) 0
  let s0 := rotr32 w15 7 ^^^ rotr32 w15 18 ^^^ (w15 >>> 3)
  let s1 := rotr32 w2 17 ^^^ rotr32 w2 19 ^^^ (w2 >>> 10)
  w ++ [(w.getD (i - 16) 0 + s0 + w.getD (i - 7) 0 + s1) % 4294967296]

/-- The 64 words of the message schedule of a 64-byte block. -/
def sha256Schedule (block : List Nat) : List Nat :=
  ((List.range 48).map (· + 16)).foldl sha256Extend
    ((List.range 16).map (fun j => beWord ((block.drop (4 * j)).take 4)))

/-- One of the 64 rounds of SHA-256 on the working variables `a` to `h`. -/
def sha256Round (w : List Nat) (v : List Nat) (i : Nat) : List Nat :=
  let a := v.getD 0 0
  let b := v.getD 1 0
  let c := v.getD 2 0
  let d := v.getD 3 0
  let e := v.getD 4 0
  let f := v.getD 5 0
  let g := v.getD 6 0
  let h := v.getD 7 0
  let s1 := rotr32 e 6 ^^^ rotr32 e 11 ^^^ rotr32 e 25
  let ch := (e &&& f) ^^^ ((4294967295 - e) &&& g)
  let t1 := h + s1 + ch + sha256K.getD i 0 + w.getD i 0
  let s0 := rotr32 a 2 ^^^ rotr32 a 13 ^^^ rotr32 a 22
  let maj := (a &&& b) ^^^ (a &&& c) ^^^ (b &&& c)
  let t2 := s0 + maj
  [(t1 + t2) % 4294967296, a, b, c, (d + t1) % 4294967296, e, f, g]

/-- Processes one 64-byte block. -/
def sha256Block (hs : List Nat) (block : List Nat) : List Nat :=
  let v := (List.range 64).foldl (sha256Round (sha256Schedule block)) hs
  (List.range 8).map (fun j => (hs.getD j 0 + v.getD j 0) % 4294967296)

/-- Processes `n` consecutive 64-byte blocks. -/
def sha256Blocks : Nat → List Nat → List Nat → List Nat
  | 0, hs, _ => hs
  | n + 1, hs, bs => sha256Blocks n (sha256Block hs (bs.take 64)) (bs.drop 64)

/-- The SHA-256 digest (FIPS 180-4) of a list of bytes, as 32 bytes. -/
def sha256Digest (bs : List Nat) : List Nat :=
  let p := sha256Pad bs
  let hs := sha256Blocks (p.length / 64)
    [0x6a09e667, 0xbb67ae85, 0x3c6ef372, 0xa54ff53a,
     0x510e527f, 0x9b05688c, 0x1f83d9ab, 0x5be0cd19] p
  hs.foldr (fun x acc => beBytes 4 x ++ acc) []

/-- The HMAC (RFC 2104) with SHA-256 of `msg` under `key`, as 32 bytes. -/
def hmacSha256Digest (key msg : List Nat) : List Nat :=
  let k0 := if key.length > 64 then sha256Digest key else key
  let k := k0 ++ List.replicate (64 - k0.length) 0
  let ipad := k.map (· ^^^ 0x36)
  let opad := k.map (· ^^^ 0x5c)
  sha256Digest (opad ++ sha256Digest (ipad ++ msg))

/-- The bytes of a digest, as a function of the position. -/
def digestFn (n : Nat) (digest : List Nat) : Fin n → Fin 256 :=
  fun i => ⟨digest.getD i.val 0 % 256, Nat.mod_lt _ (by decide)⟩

/-- The primitives as Node's `crypto` module computes them, strings being
hashed in their UTF-8 encoding. -/
def nodeCrypto : Crypto :=
  { hmacSha256 := fun key msg => digestFn 32 (hmacSha256Digest (stringBytes key) (stringBytes msg))
    md5 := fun msg => digestFn 16 (md5Digest (stringBytes msg)) }

/-! ## The document store -/

/-- The wind vector returned by `getWind`. -/
structure Wind where
  x : JSNum
  y : JSNum
  z : JSNum
  strength : JSNum
  deriving DecidableEq

/-- A document of the `sessions` collection.  The three counters are numbers
when present; `lastWind` is absent until `getWind` writes it. -/
structure SessionDoc where
  createdAt : Nat
  version : JVal
  checksum : JVal
  deviceId : JVal
  signature : String
  hits : Option ℚ
  throws : Option ℚ
  score : Option ℚ
  lastWind : Option Wind

/-- A document of a session's `events` subcollection. -/
structure Event where
  eventType : JVal
  data : Option String
  timestamp : JVal
  createdAt : Nat

/-- The store: session documents by id, and the events recorded under each
session id, oldest first. -/
structure Store where
  docs : String → Option SessionDoc
  events : String → List Event

/-- The store with no document. -/
def Store.empty : Store := ⟨fun _ => none, fun _ => []⟩

/-- The write `doc(id).set(d)`: creates or replaces the document. -/
def Store.set (st : Store) (id : String) (d : SessionDoc) : Store :=
  { st with docs := fun k => if k = id then some d else st.docs k }

/-- The write `ref.update(fields)` on a document that exists (the store
rejects the update of a missing document and creates nothing). -/
def Store.update (st : Store) (id : String) (f : SessionDoc → SessionDoc) : Store :=
  { st with docs := fun k => if k = id then (st.docs k).map f else st.docs k }

/-- The decoded JSON body of a request; every field may be absent. -/
structure ReqBody where
  version : JVal := .undefined
  checksum : JVal := .undefined
  deviceId : JVal := .undefined
  sessionToken : Option String := none
  clientSignature : JVal := .undefined
  eventType : JVal := .undefined
  timestamp : JVal := .undefined
  data : Option String := none

/-- An HTTP request: `body` is `none` when `req.body` is absent. -/
structure Request where
  method : String
  body : Option ReqBody

/-- The destructured `req.body || {}`: the fields of an absent body are all
absent. -/
def Request.fields (req : Request) : ReqBody := req.body.getD {}

/-- The JSON objects the handlers send. -/
inductive RespBody where
  /-- The object `{ok: false, error: msg}`. -/
  | error (msg : String)
  /-- The object `{ok: true}`. -/
  | ok
  /-- The object `{ok: true, sessionToken, signature}`. -/
  | session (sessionToken signature : String)
  /-- The object `{ok: true, score, hits, shots, accuracy, timeTaken}`. -/
  | results (score hits shots : ℚ) (accuracy : JSNum) (timeTaken : ℚ)
  /-- The object `{x, y, z, strength}`. -/
  | wind (w : Wind)
  deriving DecidableEq

/-- A response: status code, headers and body. -/
structure Response where
  code : Nat
  headers : List (String × String)
  body : RespBody
  deriving DecidableEq

/-- Source: `json(res, code, obj)`. -/
def json (code : Nat) (obj : RespBody) : Response :=
  { code := code
    headers := [("Access-Control-Allow-Origin", "*"),
                ("Access-Control-Allow-Headers", "Content-Type")]
    body := obj }

/-- Source: `bad(res, msg, code = 400)`. -/
def bad (msg : String) (code : Nat := 400) : Response :=
  json code (.error msg)

/-! ## The handlers -/

/-- Source: `verifySession(sessionToken, sig)`; the result is the id of the
document that `doc.ref` points to, or `none` for `null`. -/
def verifySession (C : Crypto) (st : Store) (sessionToken : Option String) (sig : JVal) :
    Option String :=
  if !strTruthy sessionToken || !sig.truthy then none
  else
    match sessionToken with
    | none => none
    | some tok =>
      match st.docs tok with
      | none => none
      | some _ =>
        if !sig.strictEqStr (hmacSign C tok) then none
        else some tok

/-- Source: `exports.handshake`. -/
def handshake (C : Crypto) (env : Env) (st : Store) (req : Request) : Store × Response :=
  if req.method ≠ "POST" then (st, bad "POST required")
  else
    let b := req.fields
    if !b.version.truthy || !b.checksum.truthy || !b.deviceId.truthy then
      (st, bad "Missing params")
    else
      let sessionToken := newToken env
      let signature := hmacSign C sessionToken
      let st1 := st.set sessionToken
        { createdAt := env.serverTime
          version := b.version
          checksum := b.checksum
          deviceId := b.deviceId
          signature := signature
          hits := some 0
          throws := some 0
          score := some 0
          lastWind := none }
      (st1, json 200 (.session sessionToken signature))

/-- The closure `r` of `getWind`: byte `i` of the hex string `seed`, over 255. -/
def r (seed : String) (i : Nat) : JSNum :=
  JSNum.div (parseInt16 (substr seed (i * 2) 2)) (.fin 255)

/-- The object `wind` of `getWind`, from the hex string `seed`; the literals
`0.5`, `0.4` and `0.8` are the rationals `1/2`, `2/5` and `4/5`. -/
def windOfSeed (seed : String) : Wind :=
  { x := JSNum.mul (JSNum.sub (r seed 0) (.fin (1 / 2))) (.fin (2 / 5))
    y := .fin 0
    z := JSNum.mul (JSNum.sub (r seed 1) (.fin (1 / 2))) (.fin (2 / 5))
    strength := JSNum.add (.fin (4 / 5)) (JSNum.mul (r seed 2) (.fin (4 / 5))) }

/-- Source: `exports.getWind`; the verified `sessionToken` is the id `ref`. -/
def getWind (C : Crypto) (st : Store) (req : Request) : Store × Response :=
  if req.method ≠ "POST" then (st, bad "POST required")
  else
    let b := req.fields
    match verifySession C st b.sessionToken b.clientSignature with
    | none => (st, bad "Invalid session" 401)
    | some ref =>
      let seed := toHex (List.ofFn (C.md5 ref))
      let wind := windOfSeed seed
      (st.update ref (fun d => { d with lastWind := some wind }), json 200 (.wind wind))

/-- Sample random bytes and clock readings. -/
def sampleEnv : Env :=
  { randomBytes := fun i => ⟨(37 * i.val + 11) % 256, Nat.mod_lt _ (by decide)⟩
    dateNow := 1700000000000
    serverTime := 1700000000123 }

/-- The handshake request of the scenario of the specification. -/
def sampleHandshake : Request :=
  { method := "POST"
    body := some { version := .str "1.0", checksum := .str "abc", deviceId := .str "dev1" } }

/-- A `sendEvent` request on the sample session with its valid signature. -/
def sampleEvent (eventType : String) (data : Option String) : Request :=
  { method := "POST"
    body := some
      { sessionToken := some (newToken sampleEnv)
        clientSignature := .str (hmacSign nodeCrypto (newToken sampleEnv))
        eventType := .str eventType
        data := data } }

/-- A request to `getResults` or `getWind` on the sample session. -/
def sampleQuery : Request :=
  { method := "POST"
    body := some
      { sessionToken := some (newToken sampleEnv)
        clientSignature := .str (hmacSign nodeCrypto (newToken sampleEnv)) } }

/-- Random bytes and clock readings under which `newToken` returns
`00000000000000000000000000c1da87`. -/
def windEnv : Env :=
  { randomBytes := digestFn 16 [0, 0, 0, 0, 0, 0, 0, 0, 0, 0, 0, 0, 0, 0xc1, 0xda, 0x87]
    dateNow := 1700000000000
    serverTime := 1700000000123 }

/-- A request to `getWind` on the session of `windEnv`, with its valid
signature. -/
def windQuery : Request :=
  { method := "POST"
    body := some
      { sessionToken := some (newToken windEnv)
        clientSignature := .str (hmacSign nodeCrypto (newToken windEnv)) } }


/-! ## JSON.parse: the fuel suffices -/

theorem skipWs_length_le (cs : List Char) : (skipWs cs).length ≤ cs.length := by
  unfold skipWs
  induction cs with
  | nil => simp
  | cons c cs ih =>
    simp only [List.dropWhile_cons]
    split
    · exact Nat.le_succ_of_le ih
    · exact le_refl _

theorem skipWs_cons_length {cs r : List Char} {c : Char} (h : skipWs cs = c :: r) :
    r.length + 1 ≤ cs.length := by
  have := skipWs_length_le cs
  rw [h] at this
  simpa using this

theorem readDigits_length (cs : List Char) :
    ∀ (acc n : Nat),
      (readDigits cs acc n).2.2.length + (readDigits cs acc n).2.1 = cs.length + n := by
  induction cs with
  | nil => intro acc n; simp [readDigits]
  | cons c cs ih =>
    intro acc n
    simp only [readDigits]
    split
    · rw [ih]; simp; omega
    · simp

theorem readInt_length {cs rest : List Char} {v : Nat} (h : readInt cs = some (v, rest)) :
    rest.length + 1 ≤ cs.length := by
  unfold readInt at h
  cases cs with
  | nil => simp at h
  | cons c r =>
    simp only at h
    split at h
    · cases h; simp
    · have hl := readDigits_length (c :: r) 0 0
      rcases hrd : readDigits (c :: r) 0 0 with ⟨v', k, rest'⟩
      rw [hrd] at h hl
      cases k with
      | zero => simp at h
      | succ k =>
        simp only [Option.some.injEq, Prod.mk.injEq] at h
        obtain ⟨_, h⟩ := h
        subst h
        simp only [List.length_cons] at hl ⊢
        omega

theorem readFrac_length {cs rest : List Char} {f k : Nat} (h : readFrac cs = some (f, k, rest)) :
    rest.length ≤ cs.length := by
  unfold readFrac at h
  cases cs with
  | nil => simp at h; obtain ⟨_, _, h⟩ := h; subst h; simp
  | cons c r =>
    simp only at h
    split at h
    · have hl := readDigits_length r 0 0
      rcases hrd : readDigits r 0 0 with ⟨v', k', rest'⟩
      rw [hrd] at h hl
      cases k' with
      | zero => simp at h
      | succ k' =>
        simp only [Option.some.injEq, Prod.mk.injEq] at h
        obtain ⟨_, _, h⟩ := h
        subst h
        simp only [List.length_cons] at hl ⊢
        omega
    · cases h; simp

theorem readExp_length {cs rest : List Char} {neg : Bool} {e : Nat}
    (h : readExp cs = some (neg, e, rest)) : rest.length ≤ cs.length := by
  unfold readExp at h
  cases cs with
  | nil => simp at h; obtain ⟨_, _, h⟩ := h; subst h; simp
  | cons c r =>
    simp only at h
    split at h
    · generalize hsg : (match r with
          | d :: r1 =>
            if d.toNat = 45 then (true, r1) else if d.toNat = 43 then (false, r1) else (false, r)
          | [] => (false, r)) = sg at h
      have hle : sg.2.length ≤ r.length := by
        rw [← hsg]
        cases r with
        | nil => simp
        | cons d r1 =>
          simp only
          split
          · simp
          · split <;> simp
      have hl := readDigits_length sg.2 0 0
      rcases hrd : readDigits sg.2 0 0 with ⟨v', k, rest'⟩
      rw [hrd] at h hl
      cases k with
      | zero => simp at h
      | succ k =>
        simp only [Option.some.injEq, Prod.mk.injEq] at h
        obtain ⟨_, _, h⟩ := h
        subst h
        simp only [List.length_cons] at hl ⊢
        omega
    · cases h; simp

theorem parseNumber_length {cs rest : List Char} {q : ℚ} (h : parseNumber cs = some (q, rest)) :
    rest.length + 1 ≤ cs.length := by
  unfold parseNumber at h
  simp only at h
  split at h
  · cases h
  · rename_i i r1 hi
    split at h
    · cases h
    · rename_i f k r2 hf
      split at h
      · cases h
      · rename_i eneg e r3 he
        cases h
        have h1 := readInt_length hi
        have h2 := readFrac_length hf
        have h3 := readExp_length he
        have hle : (match cs with
            | c :: r => if c.toNat = 45 then (true, r) else (false, cs)
            | [] => (false, cs)).2.length ≤ cs.length := by
          cases cs with
          | nil => simp
          | cons c r =>
            simp only
            split <;> simp
        omega

theorem readHex4_length {cs rest : List Char} {n : Nat} (h : readHex4 cs = some (n, rest)) :
    rest.length + 4 = cs.length := by
  unfold readHex4 at h
  split at h
  · split at h
    · cases h; simp
    · cases h
  · cases h

theorem parseStringBody_length (fuel : Nat) :
    ∀ (cs acc : List Char) (s : String) (rest : List Char),
      parseStringBody fuel cs acc = some (s, rest) → rest.length + 1 ≤ cs.length := by
  induction fuel with
  | zero => intro cs acc s rest h; simp [parseStringBody] at h
  | succ n ih =>
    intro cs acc s rest h
    cases cs with
    | nil => simp [parseStringBody] at h
    | cons c r =>
      simp only [parseStringBody] at h
      split at h
      · cases h; simp
      · split at h
        · split at h
          · cases h
          · rename_i e r1
            split at h
            · split at h
              · cases h
              · rename_i n' r2 hx
                have := ih _ _ _ _ h
                have := readHex4_length hx
                simp only [List.length_cons]
                omega
            · split at h
              · cases h
              · have := ih _ _ _ _ h
                simp only [List.length_cons]
                omega
        · split at h
          · cases h
          · have := ih _ _ _ _ h
            simp only [List.length_cons]
            omega

/-- A successful parse consumes at least one character. -/
theorem parse_length (fuel : Nat) :
    (∀ (cs : List Char) (v : JVal) (rest : List Char),
      parseValue fuel cs = some (v, rest) → rest.length + 1 ≤ cs.length) ∧
    (∀ (cs : List Char) (acc : List JVal) (v : JVal) (rest : List Char),
      parseElems fuel cs acc = some (v, rest) → rest.length + 1 ≤ cs.length) ∧
    (∀ (cs : List Char) (acc : List (String × JVal)) (v : JVal) (rest : List Char),
      parseMembers fuel cs acc = some (v, rest) → rest.length + 1 ≤ cs.length) := by
  induction fuel with
  | zero =>
    refine ⟨?_, ?_, ?_⟩
    · intro cs v rest h; simp [parseValue] at h
    · intro cs acc v rest h; simp [parseElems] at h
    · intro cs acc v rest h; simp [parseMembers] at h
  | succ n ih =>
    obtain ⟨ihV, ihE, ihM⟩ := ih
    refine ⟨?_, ?_, ?_⟩
    · intro cs v rest h
      rw [parseValue] at h
      cases hsk : skipWs cs with
      | nil => rw [hsk] at h; cases h
      | cons c r =>
        rw [hsk] at h
        have hr := skipWs_cons_length hsk
        simp only at h
        split at h
        · split at h
          · cases h; simp only [List.length_cons] at hr; omega
          · cases h
        · split at h
          · split at h
            · cases h; simp only [List.length_cons] at hr; omega
            · cases h
          · split at h
            · split at h
              · cases h; simp only [List.length_cons] at hr; omega
              · cases h
            · split at h
              · split at h
                · cases h
                · rename_i s r1 hs
                  cases h
                  have := parseStringBody_length _ _ _ _ _ hs
                  omega
              · split at h
                · cases hsk2 : skipWs r with
                  | nil => rw [hsk2] at h; cases h
                  | cons d r1 =>
                    rw [hsk2] at h
                    have hr1 := skipWs_cons_length hsk2
                    simp only at h
                    split at h
                    · cases h; omega
                    · have := ihE _ _ _ _ h
                      simp only [List.length_cons] at this
                      omega
                · split at h
                  · cases hsk2 : skipWs r with
                    | nil => rw [hsk2] at h; cases h
                    | cons d r1 =>
                      rw [hsk2] at h
                      have hr1 := skipWs_cons_length hsk2
                      simp only at h
                      split at h
                      · cases h; omega
                      · have := ihM _ _ _ _ h
                        simp only [List.length_cons] at this
                        omega
                  · split at h
                    · cases h
                    · rename_i q r1 hq
                      cases h
                      have := parseNumber_length hq
                      simp only [List.length_cons] at this
                      omega
    · intro cs acc v rest h
      rw [parseElems] at h
      split at h
      · cases h
      · rename_i v1 r hv
        have h1 := ihV _ _ _ hv
        cases hsk : skipWs r with
        | nil => rw [hsk] at h; cases h
        | cons d r1 =>
          rw [hsk] at h
          have hr1 := skipWs_cons_length hsk
          simp only at h
          split at h
          · have := ihE _ _ _ _ h
            omega
          · split at h
            · cases h; omega
            · cases h
    · intro cs acc v rest h
      rw [parseMembers] at h
      cases hsk : skipWs cs with
      | nil => rw [hsk] at h; cases h
      | cons q r =>
        rw [hsk] at h
        have hr := skipWs_cons_length hsk
        simp only at h
        split at h
        · split at h
          · cases h
          · rename_i key r1 hs
            have h1 := parseStringBody_length _ _ _ _ _ hs
            cases hsk2 : skipWs r1 with
            | nil => rw [hsk2] at h; cases h
            | cons colon r2 =>
              rw [hsk2] at h
              have hr2 := skipWs_cons_length hsk2
              simp only at h
              split at h
              · split at h
                · cases h
                · rename_i v1 r3 hv
                  have h3 := ihV _ _ _ hv
                  cases hsk3 : skipWs r3 with
                  | nil => rw [hsk3] at h; cases h
                  | cons d r4 =>
                    rw [hsk3] at h
                    have hr4 := skipWs_cons_length hsk3
                    simp only at h
                    split at h
                    · have := ihM _ _ _ _ h
                      omega
                    · split at h
                      · cases h; omega
                      · cases h
              · cases h
        · cases h

/-- Beyond twice the length of the input, more fuel does not change the
result of the parser. -/
theorem parse_fuel (n : Nat) :
    (∀ (cs : List Char) (m : Nat), 2 * cs.length + 2 ≤ n → n ≤ m →
      parseValue m cs = parseValue n cs) ∧
    (∀ (cs : List Char) (acc : List JVal) (m : Nat), 2 * cs.length + 3 ≤ n → n ≤ m →
      parseElems m cs acc = parseElems n cs acc) ∧
    (∀ (cs : List Char) (acc : List (String × JVal)) (m : Nat),
      2 * cs.length + 3 ≤ n → n ≤ m → parseMembers m cs acc = parseMembers n cs acc) := by
  induction n with
  | zero =>
    refine ⟨?_, ?_, ?_⟩
    · intro cs m h; omega
    · intro cs acc m h; omega
    · intro cs acc m h; omega
  | succ n ih =>
    obtain ⟨ihV, ihE, ihM⟩ := ih
    refine ⟨?_, ?_, ?_⟩
    · intro cs m hn hm
      obtain ⟨m', rfl⟩ : ∃ m', m = m' + 1 := ⟨m - 1, by omega⟩
      simp only [parseValue]
      cases hsk : skipWs cs with
      | nil => rfl
      | cons c r =>
        have hr := skipWs_cons_length hsk
        dsimp only
        cases hsk2 : skipWs r with
        | nil => rfl
        | cons d r1 =>
          have hr1 := skipWs_cons_length hsk2
          have e1 := ihE (d :: r1) [] m' (by simp only [List.length_cons]; omega) (by omega)
          have e2 := ihM (d :: r1) [] m' (by simp only [List.length_cons]; omega) (by omega)
          simp only [e1, e2]
    · intro cs acc m hn hm
      obtain ⟨m', rfl⟩ : ∃ m', m = m' + 1 := ⟨m - 1, by omega⟩
      simp only [parseElems]
      rw [ihV cs m' (by omega) (by omega)]
      cases hv : parseValue n cs with
      | none => rfl
      | some p =>
        obtain ⟨v, r⟩ := p
        have hlen := (parse_length n).1 _ _ _ hv
        dsimp only
        cases hsk : skipWs r with
        | nil => rfl
        | cons d r1 =>
          have hr1 := skipWs_cons_length hsk
          have e := ihE r1 (v :: acc) m' (by omega) (by omega)
          simp only [e]
    · intro cs acc m hn hm
      obtain ⟨m', rfl⟩ : ∃ m', m = m' + 1 := ⟨m - 1, by omega⟩
      simp only [parseMembers]
      cases hsk : skipWs cs with
      | nil => rfl
      | cons q r =>
        have hr := skipWs_cons_length hsk
        dsimp only
        cases hs : parseStringBody (r.length + 1) r [] with
        | none => rfl
        | some p =>
          obtain ⟨key, r1⟩ := p
          have h1 := parseStringBody_length _ _ _ _ _ hs
          dsimp only
          cases hsk2 : skipWs r1 with
          | nil => rfl
          | cons colon r2 =>
            have hr2 := skipWs_cons_length hsk2
            dsimp only
            rw [ihV r2 m' (by omega) (by omega)]
            cases hv : parseValue n r2 with
            | none => rfl
            | some p2 =>
              obtain ⟨v, r3⟩ := p2
              have hlen := (parse_length n).1 _ _ _ hv
              dsimp only
              cases hsk3 : skipWs r3 with
              | nil => rfl
              | cons d r4 =>
                have hr4 := skipWs_cons_length hsk3
                have e := ihM r4 ((key, v) :: acc) m' (by omega) (by omega)
                simp only [e]

/-- The fuel `jsonParse` gives its parser is enough: any larger amount gives
the same result. -/
theorem jsonParse_fuel (s : String) (m : Nat) (h : 2 * s.length + 2 ≤ m) :
    parseValue m s.toList = parseValue (2 * s.length + 2) s.toList :=
  (parse_fuel (2 * s.length + 2)).1 s.toList m (le_refl _) h


/-! ## Basic facts -/

theorem toHex_ofFn_ne_empty {n : Nat} (f : Fin (n + 1) → Fin 256) :
    toHex (List.ofFn f) ≠ "" := by
  intro h
  have h2 := congrArg String.data h
  simp [toHex, List.ofFn_succ, hexChars] at h2

theorem hmacSign_ne_empty (C : Crypto) (input : String) : hmacSign C input ≠ "" :=
  toHex_ofFn_ne_empty _

theorem newToken_ne_empty (env : Env) : newToken env ≠ "" :=
  toHex_ofFn_ne_empty _

theorem strictEqStr_iff (v : JVal) (s : String) : v.strictEqStr s = true ↔ v = .str s := by
  cases v <;> simp [JVal.strictEqStr]

theorem truthy_str (s : String) : (JVal.str s).truthy = true ↔ s ≠ "" := by
  simp [JVal.truthy]

theorem verifySession_some (C : Crypto) (st : Store) (tok : String) (sig : JVal) :
    verifySession C st (some tok) sig =
      if tok ≠ "" ∧ sig.truthy = true ∧ (st.docs tok).isSome = true ∧
          sig.strictEqStr (hmacSign C tok) = true
      then some tok else none := by
  unfold verifySession
  by_cases ht : tok = ""
  · simp [strTruthy, ht]
  · by_cases hs : sig.truthy = true
    · cases hd : st.docs tok with
      | none => simp [strTruthy, ht, hs, hd]
      | some d =>
        by_cases he : sig.strictEqStr (hmacSign C tok) = true
        · simp [strTruthy, ht, hs, he, hd]
        · simp [strTruthy, ht, hs, he, hd]
    · simp [strTruthy, ht, hs]

theorem verifySession_none_token (C : Crypto) (st : Store) (sig : JVal) :
    verifySession C st none sig = none := by
  simp [verifySession, strTruthy]

theorem verifySession_eq_some_iff (C : Crypto) (st : Store) (sessionToken : Option String)
    (sig : JVal) (ref : String) :
    verifySession C st sessionToken sig = some ref ↔
      sessionToken = some ref ∧ ref ≠ "" ∧ (st.docs ref).isSome = true ∧
        sig = .str (hmacSign C ref) := by
  cases sessionToken with
  | none => simp [verifySession_none_token]
  | some tok =>
    rw [verifySession_some]
    constructor
    · intro h
      split at h
      · rename_i hc
        obtain ⟨h1, _, h3, h4⟩ := hc
        cases h
        exact ⟨rfl, h1, h3, (strictEqStr_iff _ _).1 h4⟩
      · cases h
    · rintro ⟨h1, h2, h3, h4⟩
      cases h1
      subst h4
      have : (JVal.str (hmacSign C ref)).truthy = true := (truthy_str _).2 (hmacSign_ne_empty C ref)
      simp [h2, h3, this, JVal.strictEqStr]


/-! ## Test vectors of the hash functions -/

section TestVectors

set_option maxRecDepth 100000

/-- MD5 of `abc` (RFC 1321, appendix A.5). -/
theorem md5_abc :
    toHex (List.ofFn (nodeCrypto.md5 "abc")) = "900150983cd24fb0d6963f7d28e17f72" := by
  decide

/-- HMAC-SHA256 of RFC 4231, test case 2. -/
theorem hmacSha256_rfc4231_2 :
    toHex (List.ofFn (nodeCrypto.hmacSha256 "Jefe" "what do ya want for nothing?")) =
      "5bdcc146bf60754e6a042426089575c75a003f089d2739839dec58b964ec3843" := by
  decide

end TestVectors

/-! ## Reading a byte back from a hex digest -/

theorem scanInt16_hexDigits : ∀ hi lo : Fin 16,
    scanInt16 [hexDigit hi.val, hexDigit lo.val] = some (false, 16 * hi.val + lo.val) := by
  decide

theorem parseInt16_byte (b : Fin 256) :
    parseInt16 (String.mk [hexDigit (b.val / 16), hexDigit (b.val % 16)]) = .fin (b.val : ℚ) := by
  have h1 : b.val / 16 < 16 := by omega
  have h2 : b.val % 16 < 16 := by omega
  have h := scanInt16_hexDigits ⟨b.val / 16, h1⟩ ⟨b.val % 16, h2⟩
  have e : 16 * (b.val / 16) + b.val % 16 = b.val := by omega
  have h' : scanInt16 [hexDigit (b.val / 16), hexDigit (b.val % 16)]
      = some (false, b.val) := by
    rw [h]; simp only [e]
  simp [parseInt16, h']

theorem r_toHex (f : Fin 16 → Fin 256) :
    r (toHex (List.ofFn f)) 0 = .fin ((f 0).val / 255) ∧
    r (toHex (List.ofFn f)) 1 = .fin ((f 1).val / 255) ∧
    r (toHex (List.ofFn f)) 2 = .fin ((f 2).val / 255) := by
  have h0 := parseInt16_byte (f 0)
  have h1 := parseInt16_byte (f 1)
  have h2 := parseInt16_byte (f 2)
  refine ⟨?_, ?_, ?_⟩ <;>
    simp [r, substr, toHex, List.ofFn_succ, hexChars, h0, h1, h2, JSNum.div]


/-! ## What each handler does to the store -/

theorem set_docs_self (st : Store) (id : String) (d : SessionDoc) :
    (st.set id d).docs id = some d := by
  simp [Store.set]

theorem handshake_accepted (C : Crypto) (env : Env) (st : Store) (req : Request)
    (hm : req.method = "POST")
    (hv : req.fields.version.truthy = true)
    (hc : req.fields.checksum.truthy = true)
    (hd : req.fields.deviceId.truthy = true) :
    handshake C env st req =
      (st.set (newToken env)
        { createdAt := env.serverTime
          version := req.fields.version
          checksum := req.fields.checksum
          deviceId := req.fields.deviceId
          signature := hmacSign C (newToken env)
          hits := some 0
          throws := some 0
          score := some 0
          lastWind := none },
       json 200 (.session (newToken env) (hmacSign C (newToken env)))) := by
  simp [handshake, hm, hv, hc, hd]

theorem handshake_refused (C : Crypto) (env : Env) (st : Store) (req : Request)
    (hm : req.method = "POST")
    (h : req.fields.version.truthy = false ∨
      req.fields.checksum.truthy = false ∨
      req.fields.deviceId.truthy = false) :
    handshake C env st req = (st, bad "Missing params") := by
  rcases h with h | h | h <;> simp [handshake, hm, h]

/-- C4 (amended): for every POST handshake request in which `version`,
`checksum` and `deviceId` are all present and truthy, the response is
200 `{ok: true, sessionToken, signature}` with
`signature == hmacSign(sessionToken)`, the same signature is stored in the new
session document, and `verifySession(sessionToken, signature)` on the store
left by the handshake returns the handle of the session just created. -/
theorem handshake_signature_verifies (C : Crypto) (env : Env) (st : Store) (req : Request)
    (hm : req.method = "POST")
    (hv : req.fields.version.truthy = true)
    (hc : req.fields.checksum.truthy = true)
    (hd : req.fields.deviceId.truthy = true) :
    ∃ sessionToken signature,
      (handshake C env st req).2.code = 200 ∧
      (handshake C env st req).2.body = .session sessionToken signature ∧
      signature = hmacSign C sessionToken ∧
      (∃ d, (handshake C env st req).1.docs sessionToken = some d ∧ d.signature = signature) ∧
      verifySession C (handshake C env st req).1 (some sessionToken) (.str signature)
        = some sessionToken := by
  refine ⟨newToken env, hmacSign C (newToken env), ?_⟩
  rw [handshake_accepted C env st req hm hv hc hd]
  refine ⟨rfl, rfl, rfl, ⟨_, set_docs_self _ _ _, rfl⟩, ?_⟩
  rw [verifySession_eq_some_iff]
  exact ⟨rfl, newToken_ne_empty env, by simp [Store.set], rfl⟩

/-- C4 as stated fails: `checksum` is present with the value `0`, and the
response is 400 `Missing params`, not 200. -/
theorem handshake_present_zero_checksum :
    (JVal.str "1.0" ≠ .undefined ∧ JVal.num 0 ≠ .undefined ∧
      JVal.str "dev1" ≠ .undefined) ∧
    (handshake nodeCrypto sampleEnv Store.empty
      { method := "POST"
        body := some { version := .str "1.0", checksum := .num 0, deviceId := .str "dev1" } }).2
      = { code := 400
          headers := [("Access-Control-Allow-Origin", "*"),
                      ("Access-Control-Allow-Headers", "Content-Type")]
          body := .error "Missing params" } := by
  refine ⟨⟨JVal.noConfusion, JVal.noConfusion, JVal.noConfusion⟩, ?_⟩
  simp [handshake, Request.fields, JVal.truthy, bad, json]

theorem handshake_signature_verifies_witness :
    ∃ sessionToken signature,
      (handshake nodeCrypto sampleEnv Store.empty sampleHandshake).2.code = 200 ∧
      (handshake nodeCrypto sampleEnv Store.empty sampleHandshake).2.body
        = .session sessionToken signature ∧
      signature = hmacSign nodeCrypto sessionToken ∧
      (∃ d, (handshake nodeCrypto sampleEnv Store.empty sampleHandshake).1.docs sessionToken
        = some d ∧ d.signature = signature) ∧
      verifySession nodeCrypto (handshake nodeCrypto sampleEnv Store.empty sampleHandshake).1
        (some sessionToken) (.str signature) = some sessionToken := by
  exact
    handshake_signature_verifies nodeCrypto sampleEnv Store.empty sampleHandshake rfl
      (by decide) (by decide) (by decide)

/-- C8 (amended): a POST handshake request fails with 400
`{ok: false, error: "Missing params"}` and leaves the store unchanged if and
only if at least one of `version`, `checksum`, `deviceId` is falsy (absent,
`null`, `false`, `0` or the empty string); whenever all three are truthy it
succeeds with 200 and persists exactly one new session document, keyed by the
returned token, that stores `version`, `checksum` and `deviceId` verbatim with
`hits = 0`, `throws = 0` and `score = 0` (every other document and every event
is left as it was). -/
theorem handshake_missing_params_iff (C : Crypto) (env : Env) (st : Store) (req : Request)
    (hm : req.method = "POST") :
    (handshake C env st req = (st, bad "Missing params") ↔
      (req.fields.version.truthy = false ∨
        req.fields.checksum.truthy = false ∨
        req.fields.deviceId.truthy = false)) ∧
    (req.fields.version.truthy = true →
      req.fields.checksum.truthy = true →
      req.fields.deviceId.truthy = true →
      ∃ sessionToken signature,
        (handshake C env st req).2.code = 200 ∧
        (handshake C env st req).2.body = .session sessionToken signature ∧
        (handshake C env st req).1.docs sessionToken = some
          { createdAt := env.serverTime
            version := req.fields.version
            checksum := req.fields.checksum
            deviceId := req.fields.deviceId
            signature := signature
            hits := some 0
            throws := some 0
            score := some 0
            lastWind := none } ∧
        (∀ k, k ≠ sessionToken → (handshake C env st req).1.docs k = st.docs k) ∧
        (handshake C env st req).1.events = st.events) := by
  constructor
  · constructor
    · intro h
      by_contra hn
      simp only [not_or, Bool.not_eq_false] at hn
      obtain ⟨hv, hc, hd⟩ := hn
      rw [handshake_accepted C env st req hm hv hc hd] at h
      have h2 := congrArg (fun p => p.2.code) h
      simp [json, bad] at h2
    · exact handshake_refused C env st req hm
  · intro hv hc hd
    refine ⟨newToken env, hmacSign C (newToken env), ?_⟩
    rw [handshake_accepted C env st req hm hv hc hd]
    refine ⟨rfl, rfl, by simp [Store.set], ?_, rfl⟩
    intro k hk
    simp [Store.set, hk]

/-- C8 as stated fails: `version` is present with the empty string as its
value, and the request is refused with 400 and no session is created. -/
theorem handshake_present_empty_version :
    JVal.str "" ≠ .undefined ∧
    (handshake nodeCrypto sampleEnv Store.empty
      { method := "POST"
        body := some
          { version := .str "", checksum := .str "abc", deviceId := .str "dev1" } }).2.code
      = 400 ∧
    ∀ k, (handshake nodeCrypto sampleEnv Store.empty
      { method := "POST"
        body := some
          { version := .str "", checksum := .str "abc", deviceId := .str "dev1" } }).1.docs k
      = none := by
  refine ⟨JVal.noConfusion, ?_, ?_⟩
  · simp [handshake, Request.fields, JVal.truthy, bad, json]
  · intro k
    simp [handshake, Request.fields, JVal.truthy, Store.empty]

theorem handshake_missing_params_iff_witness :
    (handshake nodeCrypto sampleEnv Store.empty sampleHandshake).2.code = 200 ∧
    ((handshake nodeCrypto sampleEnv Store.empty sampleHandshake).1.docs
      (newToken sampleEnv)).isSome = true := by
  obtain ⟨tok, sig, h1, h2, h3, -, -⟩ :=
    (handshake_missing_params_iff nodeCrypto sampleEnv Store.empty sampleHandshake rfl).2
      (by decide) (by decide) (by decide)
  refine ⟨h1, ?_⟩
  have e := handshake_accepted nodeCrypto sampleEnv Store.empty sampleHandshake rfl
    (by decide) (by decide) (by decide)
  rw [e] at h2
  have : tok = (newToken sampleEnv) := by
    simp only [json] at h2
    injection h2 with h2 _
    exact h2.symm
  rw [← this, h3]
  rfl

theorem sample_store_docs :
    (handshake nodeCrypto sampleEnv Store.empty sampleHandshake).1.docs (newToken sampleEnv) = some
      { createdAt := 1700000000123
        version := .str "1.0"
        checksum := .str "abc"
        deviceId := .str "dev1"
        signature := hmacSign nodeCrypto (newToken sampleEnv)
        hits := some 0
        throws := some 0
        score := some 0
        lastWind := none } := by
  rw [handshake_accepted nodeCrypto sampleEnv Store.empty sampleHandshake rfl
    (by decide) (by decide) (by decide)]
  exact set_docs_self _ _ _

theorem sample_store_isSome :
    ((handshake nodeCrypto sampleEnv Store.empty sampleHandshake).1.docs
      (newToken sampleEnv)).isSome = true := by
  rw [sample_store_docs]
  rfl

theorem sample_verified (st : Store) (h : (st.docs (newToken sampleEnv)).isSome = true)
    (eventType : String) (data : Option String) :
    verifySession nodeCrypto st (sampleEvent eventType data).fields.sessionToken
      (sampleEvent eventType data).fields.clientSignature = some (newToken sampleEnv) := by
  rw [verifySession_eq_some_iff]
  exact ⟨rfl, newToken_ne_empty _, h, rfl⟩

theorem windOfSeed_toHex (f : Fin 16 → Fin 256) :
    windOfSeed (toHex (List.ofFn f)) =
      { x := .fin ((((f 0).val : ℚ) / 255 - 1 / 2) * (2 / 5))
        y := .fin 0
        z := .fin ((((f 1).val : ℚ) / 255 - 1 / 2) * (2 / 5))
        strength := .fin (4 / 5 + ((f 2).val : ℚ) / 255 * (4 / 5)) } := by
  obtain ⟨h0, h1, h2⟩ := r_toHex f
  simp only [windOfSeed, h0, h1, h2, JSNum.mul, JSNum.sub, JSNum.add, JSNum.lift₂]

theorem byte_unit_interval (b : Fin 256) :
    (0 : ℚ) ≤ (b.val : ℚ) / 255 ∧ (b.val : ℚ) / 255 ≤ 1 := by
  have h1 : (b.val : ℚ) ≤ 255 := by exact_mod_cast Nat.le_of_lt_succ b.isLt
  have h0 : (0 : ℚ) ≤ (b.val : ℚ) := by exact_mod_cast Nat.zero_le b.val
  constructor
  · positivity
  · rw [div_le_one (by norm_num)]
    exact h1

theorem getWind_accepted (C : Crypto) (st : Store) (req : Request) (ref : String)
    (hm : req.method = "POST")
    (hv : verifySession C st req.fields.sessionToken
      req.fields.clientSignature = some ref) :
    getWind C st req =
      (st.update ref (fun d =>
          { d with lastWind := some (windOfSeed (toHex (List.ofFn (C.md5 ref)))) }),
        json 200 (.wind (windOfSeed (toHex (List.ofFn (C.md5 ref)))))) := by
  simp only [getWind, hm, hv, ne_eq, not_true_eq_false, if_false]

/-- C7 (amended): for every token accepted by `getWind`, with `b0`, `b1`, `b2`
the first three bytes of the MD5 digest of the token and `r_i = b_i / 255`,
the wind returned (and stored as `lastWind`) is `x = (r0 - 1/2) * 2/5`,
`y = 0`, `z = (r1 - 1/2) * 2/5`, `strength = 4/5 + r2 * 4/5`, and in exact
arithmetic `-0.2 <= x <= 0.2`, `-0.2 <= z <= 0.2` and
`0.8 <= strength <= 1.6`, each `r_i` lying in the closed interval `[0, 1]`. -/
theorem getWind_spec (C : Crypto) (st : Store) (req : Request) (ref : String)
    (hm : req.method = "POST")
    (hv : verifySession C st req.fields.sessionToken
      req.fields.clientSignature = some ref) :
    req.fields.sessionToken = some ref ∧
    (getWind C st req).2.code = 200 ∧
    (getWind C st req).2.body = .wind
      { x := .fin ((((C.md5 ref 0).val : ℚ) / 255 - 1 / 2) * (2 / 5))
        y := .fin 0
        z := .fin ((((C.md5 ref 1).val : ℚ) / 255 - 1 / 2) * (2 / 5))
        strength := .fin (4 / 5 + ((C.md5 ref 2).val : ℚ) / 255 * (4 / 5)) } ∧
    (∀ d, st.docs ref = some d → ∃ d', (getWind C st req).1.docs ref = some d' ∧
      d'.lastWind = some
        { x := .fin ((((C.md5 ref 0).val : ℚ) / 255 - 1 / 2) * (2 / 5))
          y := .fin 0
          z := .fin ((((C.md5 ref 1).val : ℚ) / 255 - 1 / 2) * (2 / 5))
          strength := .fin (4 / 5 + ((C.md5 ref 2).val : ℚ) / 255 * (4 / 5)) }) ∧
    (∀ i : Fin 16,
      (0 : ℚ) ≤ ((C.md5 ref i).val : ℚ) / 255 ∧ ((C.md5 ref i).val : ℚ) / 255 ≤ 1) ∧
    (-(1 / 5 : ℚ) ≤ (((C.md5 ref 0).val : ℚ) / 255 - 1 / 2) * (2 / 5) ∧
      (((C.md5 ref 0).val : ℚ) / 255 - 1 / 2) * (2 / 5) ≤ 1 / 5) ∧
    (-(1 / 5 : ℚ) ≤ (((C.md5 ref 1).val : ℚ) / 255 - 1 / 2) * (2 / 5) ∧
      (((C.md5 ref 1).val : ℚ) / 255 - 1 / 2) * (2 / 5) ≤ 1 / 5) ∧
    ((4 / 5 : ℚ) ≤ 4 / 5 + ((C.md5 ref 2).val : ℚ) / 255 * (4 / 5) ∧
      4 / 5 + ((C.md5 ref 2).val : ℚ) / 255 * (4 / 5) ≤ 8 / 5) := by
  have hb := fun i => byte_unit_interval (C.md5 ref i)
  refine ⟨((verifySession_eq_some_iff _ _ _ _ _).1 hv).1, ?_, ?_, ?_, hb, ?_, ?_, ?_⟩
  · rw [getWind_accepted C st req ref hm hv]
    rfl
  · rw [getWind_accepted C st req ref hm hv, windOfSeed_toHex]
    rfl
  · intro d hd
    rw [getWind_accepted C st req ref hm hv, windOfSeed_toHex]
    exact ⟨_, by simp only [Store.update, if_true, hd, Option.map_some']; rfl, rfl⟩
  · obtain ⟨h0, h1⟩ := hb 0
    constructor <;> linarith
  · obtain ⟨h0, h1⟩ := hb 1
    constructor <;> linarith
  · obtain ⟨h0, h1⟩ := hb 2
    constructor <;> linarith

section WindDigest

set_option maxRecDepth 100000

/-- C7 as stated fails at the byte value 255: the token
`00000000000000000000000000c1da87`, which `newToken` returns for the random
bytes of `windEnv`, has the MD5 digest `ffffffd4a28c4344aa2bd6a00f5ea596`; its
first three bytes give `r_i = 1`, and `getWind` answers `x = 0.2`, `z = 0.2`
and `strength = 1.6`, none of them strictly below its upper bound. -/
theorem wind_at_byte_255 :
    newToken windEnv = "00000000000000000000000000c1da87" ∧
    toHex (List.ofFn (nodeCrypto.md5 (newToken windEnv))) = "ffffffd4a28c4344aa2bd6a00f5ea596" ∧
    r (toHex (List.ofFn (nodeCrypto.md5 (newToken windEnv)))) 0 = .fin 1 ∧
    (getWind nodeCrypto (handshake nodeCrypto windEnv Store.empty sampleHandshake).1
      windQuery).2.body =
      .wind { x := .fin (1 / 5), y := .fin 0, z := .fin (1 / 5), strength := .fin (8 / 5) } ∧
    ¬ ((1 : ℚ) < 1) ∧ ¬ ((1 / 5 : ℚ) < 1 / 5) ∧ ¬ ((8 / 5 : ℚ) < 8 / 5) := by
  have b0 : (nodeCrypto.md5 (newToken windEnv) 0).val = 255 := by decide
  have b1 : (nodeCrypto.md5 (newToken windEnv) 1).val = 255 := by decide
  have b2 : (nodeCrypto.md5 (newToken windEnv) 2).val = 255 := by decide
  have hdoc := handshake_accepted nodeCrypto windEnv Store.empty sampleHandshake rfl
    (by decide) (by decide) (by decide)
  have hv : verifySession nodeCrypto
      (handshake nodeCrypto windEnv Store.empty sampleHandshake).1
      windQuery.fields.sessionToken windQuery.fields.clientSignature
        = some (newToken windEnv) := by
    rw [verifySession_eq_some_iff]
    refine ⟨rfl, newToken_ne_empty windEnv, ?_, rfl⟩
    rw [hdoc, set_docs_self]
    rfl
  refine ⟨by decide, by decide, ?_, ?_, lt_irrefl _, lt_irrefl _, lt_irrefl _⟩
  · rw [(r_toHex _).1, b0]
    norm_num
  · rw [getWind_accepted nodeCrypto _ windQuery (newToken windEnv) rfl hv, windOfSeed_toHex,
      b0, b1, b2]
    norm_num [json]

end WindDigest

theorem getWind_spec_witness :
    (getWind nodeCrypto (handshake nodeCrypto sampleEnv Store.empty sampleHandshake).1
      sampleQuery).2.code = 200 ∧
    (getWind nodeCrypto (handshake nodeCrypto sampleEnv Store.empty sampleHandshake).1
      sampleQuery).2.body = .wind
      { x := .fin ((((nodeCrypto.md5 (newToken sampleEnv) 0).val : ℚ) / 255 - 1 / 2) * (2 / 5))
        y := .fin 0
        z := .fin ((((nodeCrypto.md5 (newToken sampleEnv) 1).val : ℚ) / 255 - 1 / 2) * (2 / 5))
        strength :=
          .fin (4 / 5 + ((nodeCrypto.md5 (newToken sampleEnv) 2).val : ℚ) / 255 * (4 / 5)) } := by
  have hs := sample_store_isSome
  have h := getWind_spec nodeCrypto _ sampleQuery (newToken sampleEnv) rfl
    (sample_verified _ hs "" none)
  exact ⟨h.2.1, h.2.2.1⟩


/-! ## Sequences of requests -/

end PaperThrow
